import Mathlib

/-!
Shallow embedding of the TradieTalk quoting logic (src/script.js) and
proofs about it.

Numbers handled by the JavaScript code are modelled as rationals, that
is, with exact arithmetic.  The result of the JavaScript expression
`parseFloat(raw)` on a raw input field is modelled by `ParsedNum`:
`ParsedNum.nan` when the text does not parse as a number and
`ParsedNum.num v` when it parses as the number `v`.  The source idiom
`parseFloat(raw) || 0` is `orZero`.
-/

namespace TradieTalk

/-- Result of `parseFloat` on a raw text field: `nan` when the text does
not parse as a number, `num v` otherwise. -/
inductive ParsedNum where
  | nan : ParsedNum
  | num : ℚ → ParsedNum
deriving DecidableEq

/-- Embedding of the source idiom `parseFloat(raw) || 0` (a value that did
not parse is used as 0). -/
def orZero : ParsedNum → ℚ
  | .nan => 0
  | .num v => v

/-- One ledger row as read by the totals computation: the description text
and the parsed contents of the quantity and unit price inputs. -/
structure ItemRow where
  desc : String
  qty : ParsedNum
  price : ParsedNum
deriving DecidableEq

/-- Row total `qty * price` as computed in `updateRowTotal` and inside
`recalcTotals` (src/script.js lines 279-281 and 295-297). -/
def lineTotal (r : ItemRow) : ℚ := orZero r.qty * orZero r.price

/-- The subtotal accumulation loop of `recalcTotals`
(src/script.js lines 293-298). -/
def subtotal (rows : List ItemRow) : ℚ := (rows.map lineTotal).sum

/-- The four numeric values computed by `recalcTotals`; field names follow
the local variables of the source. -/
structure QuoteTotals where
  subtotal : ℚ
  subtotalWithMargin : ℚ
  gst : ℚ
  total : ℚ
deriving DecidableEq

/-- Embedding of `recalcTotals` (src/script.js lines 292-306):
`subtotalWithMargin = subtotal + subtotal * (margin / 100)`,
`gst = subtotalWithMargin * 0.1`, `total = subtotalWithMargin + gst`. -/
def recalcTotals (rows : List ItemRow) (margin : ParsedNum) : QuoteTotals :=
  let s := subtotal rows
  let m := orZero margin
  let swm := s + s * (m / 100)
  let g := swm * (1 / 10)
  { subtotal := s, subtotalWithMargin := swm, gst := g, total := swm + g }

/-- Rounding to the nearest integer, halves away from zero, on rationals. -/
def roundNearest (q : ℚ) : ℤ :=
  if q < 0 then -⌊-q + 1 / 2⌋ else ⌊q + 1 / 2⌋

/-- Two-digit decimal rendering of a non-negative count of cents. -/
def cents2 (n : ℕ) : String :=
  toString (n / 100) ++ "." ++ (if n % 100 < 10 then "0" else "") ++ toString (n % 100)

/-- Embedding of the presentation step `x.toFixed(2)` on the rational
model (src/script.js lines 303-305): rounding to two decimal places
happens only here, never inside `recalcTotals`. -/
def toFixed2 (q : ℚ) : String :=
  if q < 0 then "-" ++ cents2 (roundNearest (-q * 100)).toNat
  else cents2 (roundNearest (q * 100)).toNat

/-- Replaces a value that did not parse by a parsed 0; used to state that
`recalcTotals` treats unparsable input exactly as the number 0. -/
def coerceNum : ParsedNum → ParsedNum
  | .nan => .num 0
  | .num v => .num v

/-- `coerceNum` applied to the quantity and price fields of a row. -/
def coerceRow (r : ItemRow) : ItemRow :=
  { desc := r.desc, qty := coerceNum r.qty, price := coerceNum r.price }

/-- The whitespace class of the JavaScript regular expression `\s` and of
`String.prototype.trim`: ASCII whitespace, no-break space, the Unicode
space separators, line and paragraph separators, and the byte order
mark. -/
def jsWhitespace (c : Char) : Bool :=
  c = ' ' || c = '\t' || c = '\n' || c = '\r' || c = '\u000B' || c = '\u000C'
    || c = '\u00A0' || c = '\u1680' || ('\u2000' ≤ c && c ≤ '\u200A')
    || c = '\u2028' || c = '\u2029' || c = '\u202F' || c = '\u205F'
    || c = '\u3000' || c = '\uFEFF'

/-- ASCII lowering of one character; the model of JavaScript
`toLowerCase` on the email identifiers handled by this system. -/
def lowerChar (c : Char) : Char :=
  if 65 ≤ c.toNat ∧ c.toNat ≤ 90 then Char.ofNat (c.toNat + 32) else c

/-- Model of the JavaScript `String.prototype.toLowerCase`. -/
def lowerStr (s : String) : String := String.mk (s.data.map lowerChar)

/-- Model of the JavaScript `String.prototype.trim`: leading and trailing
whitespace removed. -/
def trimStr (s : String) : String :=
  String.mk (((s.data.dropWhile jsWhitespace).reverse.dropWhile jsWhitespace).reverse)

/-- An account record as stored by `registerUser`
(src/script.js line 89: `users[email] = \x7b name, email, password \x7d`). -/
structure Account where
  name : String
  email : String
  password : String
deriving DecidableEq

/-- The users map persisted under the users key of the key-value store,
modelled as an association list from identifier key to account, in
insertion order (JavaScript objects preserve insertion order of string
keys). -/
abbrev UsersMap := List (String × Account)

/-- Embedding of the property lookup `users[email]`. -/
def lookupUser : UsersMap → String → Option Account
  | [], _ => none
  | (k, a) :: rest, e => if k = e then some a else lookupUser rest e

/-- Outcome of `JSON.parse` on the value stored under the users key:
`parseError` when the stored text is not valid JSON (the parse throws),
`parsedNull` when the value is absent (`localStorage.getItem` yields null
and parsing the string null yields the null value), and `parsedUsers u`
when a users map is parsed. -/
inductive ParseOutcome where
  | parseError : ParseOutcome
  | parsedNull : ParseOutcome
  | parsedUsers : UsersMap → ParseOutcome
deriving DecidableEq

/-- Embedding of `getUsers` (src/script.js lines 36-42): the parsed value
when one exists, the empty map when the stored value is falsy or the
parse throws. -/
def getUsers : ParseOutcome → UsersMap
  | .parseError => []
  | .parsedNull => []
  | .parsedUsers u => u

/-- Result of `registerUser`: `dup` carries the users map left unchanged
when the email is already registered, `ok` carries the created account
and the updated users map. -/
inductive RegResult where
  | dup : UsersMap → RegResult
  | ok : Account → UsersMap → RegResult
deriving DecidableEq

/-- Embedding of the local-fallback branch of `registerUser`
(src/script.js lines 59-93): the name is trimmed, the email is trimmed
and lowercased, an already present key aborts with an error message and
no write, otherwise the account is stored under the lowercased email and
the map is saved. -/
def registerUser (users : UsersMap) (rawName rawEmail password : String) : RegResult :=
  let name := trimStr rawName
  let email := lowerStr (trimStr rawEmail)
  match lookupUser users email with
  | some _ => .dup users
  | none =>
    .ok (Account.mk name email password)
      (users ++ [(email, Account.mk name email password)])

/-- Result of `loginUser`: the one generic `invalid` outcome (the page
shows a single generic error element), or `ok` with the stored account. -/
inductive LoginResult where
  | invalid : LoginResult
  | ok : Account → LoginResult
deriving DecidableEq

/-- Embedding of the local-fallback branch of `loginUser`
(src/script.js lines 101-126): lookup of the trimmed, lowercased email;
`if (!user || user.password !== password)` shows the generic error,
otherwise the session is set for the found account. -/
def loginUser (users : UsersMap) (rawEmail password : String) : LoginResult :=
  match lookupUser users (lowerStr (trimStr rawEmail)) with
  | none => .invalid
  | some u => if u.password = password then .ok u else .invalid

/-- One ledger row together with the identity of its table-row element:
the source keeps the rows in the array `itemRows` and identifies a row by
reference equality on its `tr` node (src/script.js lines 224 and 265);
the node reference is modelled by a natural-number identity. -/
structure LedgerRow where
  id : ℕ
  item : ItemRow
deriving DecidableEq

/-- The items currently in the ledger, in display order. -/
def ledgerItems (rows : List LedgerRow) : List ItemRow := rows.map LedgerRow.item

/-- Embedding of `addItemRow` (src/script.js lines 226-290): appends a
blank row whose quantity and price inputs hold the text 0, paired with
the next fresh identity. -/
def addItemRow (rows : List LedgerRow) (nextId : ℕ) : List LedgerRow × ℕ :=
  (rows ++ [LedgerRow.mk nextId (ItemRow.mk "" (ParsedNum.num 0) (ParsedNum.num 0))],
    nextId + 1)

/-- Embedding of the remove-button handler (src/script.js lines 263-268):
`findIndex` on the row identity, then a one-element `splice` when the
index is non-negative, and no change of the array otherwise. -/
def removeRow (rows : List LedgerRow) (handle : ℕ) : List LedgerRow :=
  let idx := rows.findIdx (fun r => r.id == handle)
  if idx < rows.length then rows.take idx ++ rows.drop (idx + 1) else rows

/-- Embedding of one keystroke in the quantity input of the row with the
given identity. -/
def setQty (rows : List LedgerRow) (handle : ℕ) (v : ParsedNum) : List LedgerRow :=
  rows.map fun r =>
    if r.id = handle then LedgerRow.mk r.id (ItemRow.mk r.item.desc v r.item.price) else r

/-- Embedding of one keystroke in the unit price input of the row with
the given identity. -/
def setPrice (rows : List LedgerRow) (handle : ℕ) (v : ParsedNum) : List LedgerRow :=
  rows.map fun r =>
    if r.id = handle then LedgerRow.mk r.id (ItemRow.mk r.item.desc r.item.qty v) else r

/-- Embedding of one keystroke in the description input of the row with
the given identity. -/
def setDesc (rows : List LedgerRow) (handle : ℕ) (s : String) : List LedgerRow :=
  rows.map fun r =>
    if r.id = handle then LedgerRow.mk r.id (ItemRow.mk s r.item.qty r.item.price) else r

/-- One user edit of the ledger: the add-item button, a remove button, or
typing in one of the three inputs of a row. -/
inductive LedgerOp where
  | add : LedgerOp
  | remove : ℕ → LedgerOp
  | edDesc : ℕ → String → LedgerOp
  | edQty : ℕ → ParsedNum → LedgerOp
  | edPrice : ℕ → ParsedNum → LedgerOp
deriving DecidableEq

/-- One step of the event-driven mutation of the ledger state, the row
array paired with the next fresh identity. -/
def applyOp : List LedgerRow × ℕ → LedgerOp → List LedgerRow × ℕ
  | (rows, n), .add => addItemRow rows n
  | (rows, n), .remove h => (removeRow rows h, n)
  | (rows, n), .edDesc h s => (setDesc rows h s, n)
  | (rows, n), .edQty h v => (setQty rows h v, n)
  | (rows, n), .edPrice h v => (setPrice rows h v, n)

/-- The ledger state after a history of edits, starting from the empty
array. -/
def applyOps (ops : List LedgerOp) : List LedgerRow × ℕ :=
  ops.foldl applyOp ([], 0)

/-- State machine of the global replacement of the regular expression
`\s+` by one underscore: the flag records whether the previous character
belonged to a whitespace run. -/
def replaceWsAux : Bool → List Char → List Char
  | _, [] => []
  | inRun, c :: rest =>
    if jsWhitespace c then
      if inRun then replaceWsAux true rest else '_' :: replaceWsAux true rest
    else c :: replaceWsAux false rest

/-- Embedding of the replacement of every whitespace run of the client
name by one underscore (src/script.js line 418). -/
def replaceWs (s : String) : String := String.mk (replaceWsAux false s.data)

/-- Embedding of the filename computation of the generate-PDF handler:
the client name is the raw field value, or Client when that value is
empty (src/script.js line 370), and the file is saved under
quote-<replaced>.pdf with a lowercase client fallback when the replaced
name is empty (line 418). -/
def pdfFileName (clientNameRaw : String) : String :=
  let clientName := if clientNameRaw = "" then "Client" else clientNameRaw
  let repl := replaceWs clientName
  "quote-" ++ (if repl = "" then "client" else repl) ++ ".pdf"

/-- Helper: evaluation of `toFixed2` on a non-negative rational whose
scaled-and-rounded value is known. -/
theorem toFixed2_nonneg_eq (q : ℚ) (n : ℕ) (h0 : 0 ≤ q)
    (hfl : ⌊q * 100 + 1 / 2⌋ = (n : ℤ)) : toFixed2 q = cents2 n := by
  rw [toFixed2, if_neg (not_lt.mpr h0), roundNearest,
    if_neg (not_lt.mpr (mul_nonneg h0 (by norm_num))), hfl, Int.toNat_natCast]

/-- Helper: coercing an unparsable value to a parsed 0 does not change the
number used by the computation. -/
theorem orZero_coerceNum (x : ParsedNum) : orZero (coerceNum x) = orZero x := by
  cases x <;> rfl

/-- Helper: coercing a row does not change its line total. -/
theorem lineTotal_coerceRow (r : ItemRow) : lineTotal (coerceRow r) = lineTotal r := by
  simp [lineTotal, coerceRow, orZero_coerceNum]

/-- Helper: coercing every row does not change the subtotal. -/
theorem subtotal_coerce (rows : List ItemRow) :
    subtotal (rows.map coerceRow) = subtotal rows := by
  simp [subtotal, List.map_map, Function.comp_def, lineTotal_coerceRow]

/-- Claim C1: for every ledger and every margin value, the computed
subtotal-with-margin (the taxable amount) equals subtotal times
(1 + margin/100), the GST equals the taxable amount times the fixed
10 percent rate, and the total is taxable amount plus GST. -/
theorem C1_totals_invariant (rows : List ItemRow) (margin : ParsedNum) :
    (recalcTotals rows margin).subtotalWithMargin
        = (recalcTotals rows margin).subtotal * (1 + orZero margin / 100)
      ∧ (recalcTotals rows margin).gst
        = (recalcTotals rows margin).subtotalWithMargin * (10 / 100)
      ∧ (recalcTotals rows margin).total
        = (recalcTotals rows margin).subtotalWithMargin
            + (recalcTotals rows margin).gst := by
  refine ⟨?_, ?_, ?_⟩ <;> simp only [recalcTotals] <;> ring

/-- Claim C3: an unparsable numeric field is treated as 0 by the totals
computation: a row with unparsable quantity and price 5 contributes a line
total of 0, and replacing every unparsable quantity, price or margin by a
parsed 0 leaves the computed totals unchanged, so no NaN-like value ever
reaches subtotal, GST or total. -/
theorem C3_unparsable_treated_as_zero (rows : List ItemRow) (margin : ParsedNum)
    (d : String) :
    orZero ParsedNum.nan = 0
      ∧ lineTotal (ItemRow.mk d ParsedNum.nan (ParsedNum.num 5)) = 0
      ∧ recalcTotals rows margin
          = recalcTotals (rows.map coerceRow) (coerceNum margin) := by
  refine ⟨rfl, by simp [lineTotal, orZero], ?_⟩
  simp [recalcTotals, subtotal_coerce, orZero_coerceNum]

/-- Claim C5: on the ledger with the single row (Install tap, quantity 2,
unit price 45) and margin 10, the internal totals are exactly 90, 99,
99/10 and 1089/10, and their two-decimal presentations are 90.00, 99.00,
9.90 and 108.90; rounding happens only in `toFixed2`, the presentation
step, while `recalcTotals` itself is exact. -/
theorem C5_scenario_install_tap :
    (recalcTotals [ItemRow.mk "Install tap" (ParsedNum.num 2)
        (ParsedNum.num 45)] (ParsedNum.num 10)).subtotal = 90
      ∧ (recalcTotals [ItemRow.mk "Install tap" (ParsedNum.num 2)
          (ParsedNum.num 45)] (ParsedNum.num 10)).subtotalWithMargin = 99
      ∧ (recalcTotals [ItemRow.mk "Install tap" (ParsedNum.num 2)
          (ParsedNum.num 45)] (ParsedNum.num 10)).gst = 99 / 10
      ∧ (recalcTotals [ItemRow.mk "Install tap" (ParsedNum.num 2)
          (ParsedNum.num 45)] (ParsedNum.num 10)).total = 1089 / 10
      ∧ toFixed2 90 = "90.00" ∧ toFixed2 99 = "99.00"
      ∧ toFixed2 (99 / 10) = "9.90" ∧ toFixed2 (1089 / 10) = "108.90" := by
  refine ⟨?_, ?_, ?_, ?_, ?_, ?_, ?_, ?_⟩
  · norm_num [recalcTotals, subtotal, lineTotal, orZero]
  · norm_num [recalcTotals, subtotal, lineTotal, orZero]
  · norm_num [recalcTotals, subtotal, lineTotal, orZero]
  · norm_num [recalcTotals, subtotal, lineTotal, orZero]
  · rw [toFixed2_nonneg_eq 90 9000 (by norm_num)
      (Int.floor_eq_iff.mpr (by norm_num))]
    decide
  · rw [toFixed2_nonneg_eq 99 9900 (by norm_num)
      (Int.floor_eq_iff.mpr (by norm_num))]
    decide
  · rw [toFixed2_nonneg_eq (99 / 10) 990 (by norm_num)
      (Int.floor_eq_iff.mpr (by norm_num))]
    decide
  · rw [toFixed2_nonneg_eq (1089 / 10) 10890 (by norm_num)
      (Int.floor_eq_iff.mpr (by norm_num))]
    decide

/-- Helper: a successful lookup returns an entry of the map whose key is
the searched key. -/
theorem lookupUser_eq_some_mem (users : UsersMap) (e : String) (a : Account)
    (h : lookupUser users e = some a) : (e, a) ∈ users := by
  induction users with
  | nil => simp [lookupUser] at h
  | cons p rest ih =>
    obtain ⟨k, b⟩ := p
    by_cases hk : k = e
    · subst hk
      simp only [lookupUser, if_true, eq_self_iff_true, Option.some.injEq] at h
      subst h
      exact List.mem_cons_self _ _
    · simp only [lookupUser, if_neg hk] at h
      exact List.mem_cons_of_mem _ (ih h)

/-- Helper: lookup of a key present in the map succeeds. -/
theorem lookupUser_isSome_of_mem (users : UsersMap) (e : String) (a : Account)
    (h : (e, a) ∈ users) : ∃ b, lookupUser users e = some b := by
  induction users with
  | nil => simp at h
  | cons p rest ih =>
    obtain ⟨k, b⟩ := p
    by_cases hk : k = e
    · exact ⟨b, by simp [lookupUser, hk]⟩
    · rcases List.mem_cons.mp h with heq | hmem
      · cases heq
        exact absurd rfl hk
      · simpa [lookupUser, hk] using ih hmem

/-- Claim C6: under the invariant that every stored key is already in
lowercased form (the store is only ever written by `registerUser`, which
lowercases), registration fails, leaving the users map unchanged, exactly
when some stored entry has an identifier equal, case-insensitively, to
the supplied identifier; on that failure nothing is overwritten. -/
theorem C6_register_duplicate (users : UsersMap) (rawName rawEmail password : String)
    (hnorm : ∀ p ∈ users, lowerStr p.1 = p.1) :
    registerUser users rawName rawEmail password = RegResult.dup users
      ↔ ∃ p ∈ users, lowerStr p.1 = lowerStr (trimStr rawEmail) := by
  unfold registerUser
  cases hlk : lookupUser users (lowerStr (trimStr rawEmail)) with
  | some a =>
    simp only [hlk]
    constructor
    · intro _
      exact ⟨(lowerStr (trimStr rawEmail), a), lookupUser_eq_some_mem _ _ _ hlk,
        hnorm _ (lookupUser_eq_some_mem _ _ _ hlk)⟩
    · intro _
      trivial
  | none =>
    simp only [hlk]
    constructor
    · intro h
      exact absurd h (by simp)
    · rintro ⟨p, hp, hci⟩
      have hkey : p.1 = lowerStr (trimStr rawEmail) := by
        rw [← hnorm p hp, hci]
      obtain ⟨b, hb⟩ := lookupUser_isSome_of_mem users p.1 p.2 (by simpa using hp)
      rw [hkey, hlk] at hb
      cases hb

/-- Witness for C6 at a concrete store: registering a second account under
the same email, here differing in case and surrounding whitespace, fails
and leaves the stored account untouched. -/
theorem C6_register_duplicate_witness :
    registerUser [("a@x.com", Account.mk "Alice" "a@x.com" "pw1")] "Bob" " A@X.com " "pw2"
      = RegResult.dup [("a@x.com", Account.mk "Alice" "a@x.com" "pw1")] :=
  (C6_register_duplicate
      [("a@x.com", Account.mk "Alice" "a@x.com" "pw1")] "Bob" " A@X.com " "pw2"
      (by decide)).mpr
    ⟨("a@x.com", Account.mk "Alice" "a@x.com" "pw1"), by simp, by decide⟩

/-- Claim C7: login succeeds, returning exactly the stored account, when
the lookup of the supplied identifier finds an account whose secret
equals the supplied secret; in every other case the observable outcome is
the single generic invalid-credentials result, identical for an unknown
identifier and for a wrong secret. -/
theorem C7_login_generic_failure (users : UsersMap) (rawEmail password : String) :
    (∀ a : Account,
        loginUser users rawEmail password = LoginResult.ok a
          ↔ lookupUser users (lowerStr (trimStr rawEmail)) = some a
              ∧ a.password = password)
      ∧ (loginUser users rawEmail password = LoginResult.invalid
          ↔ ¬ ∃ a : Account,
              lookupUser users (lowerStr (trimStr rawEmail)) = some a
                ∧ a.password = password) := by
  unfold loginUser
  cases hlk : lookupUser users (lowerStr (trimStr rawEmail)) with
  | none =>
    refine ⟨fun a => ?_, ?_⟩
    · simp
    · simp
  | some u =>
    by_cases hpw : u.password = password
    · refine ⟨fun a => ?_, ?_⟩
      · simp only [if_pos hpw, LoginResult.ok.injEq, Option.some.injEq]
        constructor
        · intro h
          subst h
          exact ⟨rfl, hpw⟩
        · rintro ⟨h, _⟩
          exact h
      · simp only [if_pos hpw]
        constructor
        · intro h
          exact LoginResult.noConfusion h
        · intro h
          exact absurd ⟨u, rfl, hpw⟩ h
    · refine ⟨fun a => ?_, ?_⟩
      · simp only [if_neg hpw, LoginResult.ok.injEq, Option.some.injEq]
        constructor
        · intro h
          exact LoginResult.noConfusion h
        · rintro ⟨h, hp⟩
          subst h
          exact absurd hp hpw
      · simp only [if_neg hpw, Option.some.injEq]
        refine ⟨fun _ => ?_, fun _ => trivial⟩
        rintro ⟨a, ha, hp⟩
        subst ha
        exact hpw hp

/-- Helper: the remove handler equals `List.eraseP` on the row identity:
it deletes the first row carrying the handle, if any. -/
theorem removeRow_eq_eraseP (rows : List LedgerRow) (handle : ℕ) :
    removeRow rows handle = rows.eraseP (fun r => r.id == handle) := by
  induction rows with
  | nil => rfl
  | cons r rest ih =>
    cases hb : (r.id == handle) with
    | true =>
      simp [removeRow, List.findIdx_cons, hb, List.eraseP_cons_of_pos]
    | false =>
      simp only [removeRow, List.findIdx_cons, hb, cond_false] at ih ⊢
      rw [List.eraseP_cons_of_neg (by simp [hb])]
      by_cases hlt : List.findIdx (fun r => r.id == handle) rest < rest.length
      · rw [if_pos (by simpa using Nat.succ_lt_succ hlt)]
        rw [if_pos hlt] at ih
        simp only [List.take_succ_cons, List.drop_succ_cons, List.cons_append]
        rw [ih]
      · rw [if_neg (by simpa using fun hc => hlt (Nat.lt_of_succ_lt_succ hc))]
        rw [if_neg hlt] at ih
        rw [← ih]

/-- Claim C8: removing an absent handle changes nothing, and removing a
present handle deletes exactly the first row carrying it, leaving the
remaining rows, their order, identities and field values untouched, so
that the subtotal loses exactly the removed line total. -/
theorem C8_removeRow_frame (rows : List LedgerRow) (handle : ℕ) :
    ((∀ r ∈ rows, r.id ≠ handle) → removeRow rows handle = rows)
      ∧ (∀ l₁ r l₂, rows = l₁ ++ r :: l₂ → r.id = handle →
          (∀ q ∈ l₁, q.id ≠ handle) →
          removeRow rows handle = l₁ ++ l₂
            ∧ subtotal (ledgerItems rows)
                = lineTotal r.item + subtotal (ledgerItems (l₁ ++ l₂))) := by
  constructor
  · intro h
    rw [removeRow_eq_eraseP]
    exact List.eraseP_of_forall_not fun a ha => by simp [h a ha]
  · intro l₁ r l₂ hsplit hr hhd
    subst hsplit
    constructor
    · rw [removeRow_eq_eraseP,
        List.eraseP_append_right _ fun b hb => by simp [hhd b hb],
        List.eraseP_cons_of_pos (by simp [hr])]
    · simp only [ledgerItems, subtotal, List.map_append, List.map_cons,
        List.sum_append, List.sum_cons]
      ring

/-- Witness for C8 at a concrete ledger: removing an absent handle is a
no-op. -/
theorem C8_removeRow_frame_witness :
    removeRow [LedgerRow.mk 0 (ItemRow.mk "a" (ParsedNum.num 1) (ParsedNum.num 2))] 7
      = [LedgerRow.mk 0 (ItemRow.mk "a" (ParsedNum.num 1) (ParsedNum.num 2))] :=
  (C8_removeRow_frame
      [LedgerRow.mk 0 (ItemRow.mk "a" (ParsedNum.num 1) (ParsedNum.num 2))] 7).1
    (by decide)

/-- Claim C2: for a non-negative margin, the computed subtotal is the sum
over all rows of quantity times unit price, blank descriptions included,
and any two edit histories reaching the same final ledger contents give
identical totals. -/
theorem C2_subtotal_history_independent (m : ℚ) (_hm : 0 ≤ m)
    (ops₁ ops₂ : List LedgerOp)
    (hsame : ledgerItems (applyOps ops₁).1 = ledgerItems (applyOps ops₂).1) :
    (recalcTotals (ledgerItems (applyOps ops₁).1) (ParsedNum.num m)).subtotal
        = ((ledgerItems (applyOps ops₁).1).map
            (fun r => orZero r.qty * orZero r.price)).sum
      ∧ recalcTotals (ledgerItems (applyOps ops₁).1) (ParsedNum.num m)
          = recalcTotals (ledgerItems (applyOps ops₂).1) (ParsedNum.num m) := by
  constructor
  · rfl
  · rw [hsame]

/-- Witness for C2: the one-row ledger built by a single add equals, in
totals, the ledger built by two adds followed by removing the second
row. -/
theorem C2_subtotal_history_independent_witness :
    recalcTotals (ledgerItems (applyOps [LedgerOp.add]).1) (ParsedNum.num 5)
      = recalcTotals
          (ledgerItems (applyOps [LedgerOp.add, LedgerOp.add, LedgerOp.remove 1]).1)
          (ParsedNum.num 5) :=
  (C2_subtotal_history_independent 5 (by norm_num) [LedgerOp.add]
      [LedgerOp.add, LedgerOp.add, LedgerOp.remove 1] (by decide)).2

/-- Counterexample to claim C4 as stated: the line-item data admits a
negative parsed quantity, and the totals computation uses it unchanged, a
row of quantity -1 and price 1 contributing -1 to the subtotal. -/
theorem C4_counterexample :
    subtotal [ItemRow.mk "x" (ParsedNum.num (-1)) (ParsedNum.num 1)] = -1
      ∧ ¬ (∀ r : ItemRow, 0 ≤ orZero r.qty ∧ 0 ≤ orZero r.price) := by
  constructor
  · simp [subtotal, lineTotal, orZero]
  · intro h
    have := (h (ItemRow.mk "x" (ParsedNum.num (-1)) (ParsedNum.num 1))).1
    norm_num [orZero] at this

/-- Claim C4 amended: the computation applies no clamping, so negative
parsed values flow into the totals; when every parsed quantity and price
of the ledger is non-negative, every line total and the subtotal are
non-negative. -/
theorem C4_nonneg_of_inputs_nonneg (rows : List ItemRow)
    (h : ∀ r ∈ rows, 0 ≤ orZero r.qty ∧ 0 ≤ orZero r.price) :
    (∀ r ∈ rows, 0 ≤ lineTotal r) ∧ 0 ≤ subtotal rows := by
  have hl : ∀ r ∈ rows, 0 ≤ lineTotal r := fun r hr =>
    mul_nonneg (h r hr).1 (h r hr).2
  refine ⟨hl, ?_⟩
  unfold subtotal
  apply List.sum_nonneg
  intro x hx
  obtain ⟨r, hr, rfl⟩ := List.mem_map.mp hx
  exact hl r hr

/-- Witness for C4 as amended, at a concrete one-row ledger. -/
theorem C4_nonneg_of_inputs_nonneg_witness :
    0 ≤ subtotal [ItemRow.mk "a" (ParsedNum.num 2) (ParsedNum.num 3)] :=
  (C4_nonneg_of_inputs_nonneg [ItemRow.mk "a" (ParsedNum.num 2) (ParsedNum.num 3)]
      (by
        rintro r hr
        simp only [List.mem_singleton] at hr
        subst hr
        constructor <;> norm_num [orZero])).2

/-- Helper: the whitespace-run replacement of a non-empty character list
is non-empty. -/
theorem replaceWsAux_ne_nil (c : Char) (l : List Char) :
    replaceWsAux false (c :: l) ≠ [] := by
  unfold replaceWsAux
  by_cases h : jsWhitespace c <;> simp [h]

/-- Helper: the whitespace-run replacement of a non-empty string is never
the empty string, so the lowercase client fallback of the source is
unreachable. -/
theorem replaceWs_ne_empty (s : String) (h : s ≠ "") : replaceWs s ≠ "" := by
  intro hc
  obtain ⟨l⟩ := s
  cases l with
  | nil => exact h rfl
  | cons c cs =>
    have hdata : (replaceWs (String.mk (c :: cs))).data = [] := by rw [hc]
    exact replaceWsAux_ne_nil c cs hdata

/-- Counterexample to claim C9 as stated: a blank client name produces
the filename quote-Client.pdf, with a capitalised default, not the
claimed lowercase default client. -/
theorem C9_counterexample :
    pdfFileName "" = "quote-Client.pdf" ∧ pdfFileName "" ≠ "quote-client.pdf" := by
  constructor <;> decide

/-- Claim C9 amended: the exported filename is quote- followed by the
client name with every whitespace run replaced by one underscore,
followed by .pdf, where a blank client name defaults to Client with a
capital C; the lowercase client fallback of the source never fires. -/
theorem C9_filename (raw : String) :
    pdfFileName raw
      = "quote-" ++ replaceWs (if raw = "" then "Client" else raw) ++ ".pdf" := by
  by_cases h : raw = ""
  · subst h
    decide
  · simp only [pdfFileName, if_neg h, if_neg (replaceWs_ne_empty raw h)]

/-- Claim C10: an absent or unparsable persisted users value yields the
empty map, so login fails with the generic invalid result and
registration proceeds exactly as on an empty store, creating the
account. -/
theorem C10_corrupt_store_as_empty (rawName rawEmail password : String) :
    getUsers ParseOutcome.parseError = []
      ∧ getUsers ParseOutcome.parsedNull = []
      ∧ loginUser (getUsers ParseOutcome.parseError) rawEmail password
          = LoginResult.invalid
      ∧ loginUser (getUsers ParseOutcome.parsedNull) rawEmail password
          = LoginResult.invalid
      ∧ registerUser (getUsers ParseOutcome.parseError) rawName rawEmail password
          = registerUser [] rawName rawEmail password
      ∧ registerUser (getUsers ParseOutcome.parsedNull) rawName rawEmail password
          = RegResult.ok
              (Account.mk (trimStr rawName) (lowerStr (trimStr rawEmail)) password)
              [(lowerStr (trimStr rawEmail),
                Account.mk (trimStr rawName) (lowerStr (trimStr rawEmail)) password)] :=
  ⟨rfl, rfl, rfl, rfl, rfl, rfl⟩

end TradieTalk
